import Mathlib

/-!
# cpp-14-guide: the constexpr factorial and the library catalogue

A shallow embedding of two programs of the repository:

* `src/12.relaxed-constexpr.cpp`: `factorial`, a recursive `constexpr` function on `int`;
* `src/complete_example.cpp`: the class `Library`, a hash map from `int` ids to titles together
  with a vector of uniquely owned author names, and the member functions that fill and print them.

Text written to `std::cout` is modelled as the `String` of characters written, with `std::endl`
written as a newline. Member functions that change the object return the new object. Values of
type `int` are integers reduced to 32 bits wherever the source computes or stores them.
-/

namespace RelaxedConstexpr

/-- Value held by a 32-bit two's-complement `int` to which the integer `x` is stored. -/
def wrapInt32 (x : Int) : Int :=
  (x + 2147483648) % 4294967296 - 2147483648

/-- Embedding of `constexpr int factorial(int n) { return n > 1 ? n * factorial(n - 1) : 1; }`.
The product is computed in `int`, hence reduced to 32 bits. -/
def factorial (n : Int) : Int :=
  if _h : n > 1 then wrapInt32 (n * factorial (n - 1)) else 1
termination_by n.toNat
decreasing_by omega

/-- Number of invocations of `factorial` (the first one included) made by a call `factorial(n)`:
one for the call itself, plus those of the recursive call when `n > 1` takes the first branch. -/
def factorialCalls (n : Int) : Nat :=
  if _h : n > 1 then factorialCalls (n - 1) + 1 else 1
termination_by n.toNat
decreasing_by omega

/-- The constant `constexpr int result = factorial(5);` of `main`. -/
def result : Int := factorial 5

end RelaxedConstexpr

namespace CompleteExample

/-- Value held by a 32-bit two's-complement `int` to which the integer `x` is stored: the result
of narrowing a wider value to `int`, and of `int` arithmetic that leaves the range (which the
language leaves undefined and the usual targets wrap around). -/
def toInt32 (x : Int) : Int :=
  (x + 2147483648) % 4294967296 - 2147483648

/-- Embedding of `enum class Genre { Fiction, NonFiction, SciFi, Fantasy };`. -/
inductive Genre where
  | Fiction
  | NonFiction
  | SciFi
  | Fantasy
  deriving DecidableEq, Repr

/-- Contents of a `std::unordered_map<int, std::string>`: its entries, listed in the order in which
their keys were inserted. The container keeps keys pairwise distinct; the order in which the
container itself hands out its entries is a separate matter, see `Traversal`. -/
abbrev BookMap := List (Int × String)

/-- Exceptions of the standard library that the catalogue lets escape. -/
inductive StdException where
  | out_of_range
  deriving DecidableEq, Repr

namespace UnorderedMap

/-- Embedding of `size()`: the number of entries. -/
def size (m : BookMap) : Nat := m.length

/-- Embedding of `find(key)`: the value stored under `key`, if any. -/
def find : BookMap → Int → Option String
  | [], _ => none
  | (k, v) :: rest, key => if k = key then some v else find rest key

/-- Keys of the map, in order of insertion. -/
def keys (m : BookMap) : List Int := m.map Prod.fst

/-- Embedding of `emplace(key, value)`: a new entry is added only when `key` is absent; an existing
entry is left as it is. -/
def emplace (m : BookMap) (key : Int) (value : String) : BookMap :=
  match find m key with
  | some _ => m
  | none => m ++ [(key, value)]

/-- Embedding of the lookup part of `operator[]`: when `key` is absent an entry with a
value-initialised (empty) string is inserted first. -/
def subscript (m : BookMap) (key : Int) : BookMap :=
  emplace m key ""

/-- Assignment through the reference returned by `operator[]`: the value stored under `key`
is replaced. -/
def store (m : BookMap) (key : Int) (value : String) : BookMap :=
  m.map (fun p => if p.1 = key then (p.1, value) else p)

/-- Embedding of the statement `m[key] = value`. -/
def assign (m : BookMap) (key : Int) (value : String) : BookMap :=
  store (subscript m key) key value

/-- Embedding of `at(key)`: the stored value, or the exception `std::out_of_range` when `key` is
absent. The map is not changed in either case. -/
def atKey (m : BookMap) (key : Int) : Except StdException String :=
  match find m key with
  | some v => Except.ok v
  | none => Except.error StdException.out_of_range

end UnorderedMap

/-- Iteration order of the hash map, from `begin()` to `end()`. The C++ standard leaves it
unspecified and the hash table is not part of the repository, so it is a parameter: any function
that lists every entry of the map exactly once. -/
structure Traversal where
  /-- Entries in the order in which an iteration visits them. -/
  iter : BookMap → List (Int × String)
  /-- An iteration visits every entry exactly once. -/
  perm : ∀ m : BookMap, (iter m).Perm m

/-- Iteration order of a hash table that links every new node at the head of its element list, so
that entries come out newest first (what libstdc++ does while each key has a bucket of its own). -/
def headLinked : Traversal :=
  ⟨List.reverse, fun m => List.reverse_perm m⟩

/-- Iteration order of a hash table that hands out its entries oldest first. -/
def tailLinked : Traversal :=
  ⟨fun m => m, fun m => List.Perm.refl m⟩

/-- Data members of `class Library`: `books` and `authors` (a vector of `std::unique_ptr` to
strings, each element owning one name). -/
structure Library where
  books : BookMap
  authors : List String
  deriving DecidableEq, Repr

namespace Library

/-- Embedding of `Library() = default;`: both containers empty. -/
def empty : Library := ⟨[], []⟩

/-- Initial value of the local `int id = books.size() + 1;` of the three insertion functions:
the sum, computed in `size_t`, is narrowed to the 32-bit `int`. -/
def firstId (lib : Library) : Int := toInt32 ((UnorderedMap.size lib.books : Int) + 1)

/-- Loop `for (const auto& book : bookList) { books[id++] = book; }`; the increment `id++` is
made on the 32-bit `int`. -/
def addBooksLoop (books : BookMap) (id : Int) : List String → BookMap
  | [] => books
  | book :: rest => addBooksLoop (UnorderedMap.assign books id book) (toInt32 (id + 1)) rest

/-- Embedding of `void addBooks(std::initializer_list<std::string> bookList)`. -/
def addBooks (lib : Library) (bookList : List String) : Library :=
  { lib with books := addBooksLoop lib.books (firstId lib) bookList }

/-- Fold `(..., books.emplace(id++, args))` over the comma operator, leftmost argument first;
the increment `id++` is made on the 32-bit `int`. -/
def emplaceFold (books : BookMap) (id : Int) : List String → BookMap
  | [] => books
  | arg :: rest => emplaceFold (UnorderedMap.emplace books id arg) (toInt32 (id + 1)) rest

/-- Embedding of `template <typename... Args> void addBooks(Args... args)`, the arguments being
the titles. -/
def addBooksVariadic (lib : Library) (args : List String) : Library :=
  { lib with books := emplaceFold lib.books (firstId lib) args }

/-- Embedding of `getBookTitle(int id)`, that is `return books.at(id);`: the result (a copy of
the title, or the escaping exception) paired with the object after the call. -/
def getBookTitle (lib : Library) (id : Int) : Except StdException String × Library :=
  (UnorderedMap.atKey lib.books id, lib)

/-- Embedding of `void addAuthor(const std::string& author)`:
`authors.emplace_back(std::make_unique<std::string>(author))`. -/
def addAuthor (lib : Library) (author : String) : Library :=
  { lib with authors := lib.authors ++ [author] }

/-- Embedding of `void showAuthors() const`: the text written. -/
def showAuthors (lib : Library) : String :=
  lib.authors.foldl (fun out author => out ++ " - " ++ author ++ "\n") "Authors:\n"

/-- Text written by one call of the lambda of `showBooks`. -/
def bookLine (pair : Int × String) : String :=
  "Book ID: " ++ toString pair.1 ++ ", Title: " ++ pair.2 ++ "\n"

/-- Embedding of `void showBooks() const`: `std::for_each` from `books.begin()` to `books.end()`,
the text written. -/
def showBooks (tr : Traversal) (lib : Library) : String :=
  (tr.iter lib.books).foldl (fun out pair => out ++ bookLine pair) ""

/-- Embedding of `void addMovedBook(std::string&& title)`. -/
def addMovedBook (lib : Library) (title : String) : Library :=
  { lib with books := UnorderedMap.assign lib.books (firstId lib) title }

/-- Embedding of `void setGenre(Genre genre)`: the object after the call and the text written. -/
def setGenre (lib : Library) (genre : Genre) : Library × String :=
  (lib, "Genre set to " ++
    (match genre with
      | Genre.Fiction => "Fiction\n"
      | Genre.NonFiction => "NonFiction\n"
      | Genre.SciFi => "SciFi\n"
      | Genre.Fantasy => "Fantasy\n"))

end Library

/-- One call of a member function that may change a `Library`. -/
inductive Call where
  | addBooks (bookList : List String)
  | addBooksVariadic (args : List String)
  | addMovedBook (title : String)
  | addAuthor (author : String)
  | setGenre (genre : Genre)
  deriving DecidableEq, Repr

/-- The object after one call. -/
def Call.run (lib : Library) : Call → Library
  | Call.addBooks bookList => lib.addBooks bookList
  | Call.addBooksVariadic args => lib.addBooksVariadic args
  | Call.addMovedBook title => lib.addMovedBook title
  | Call.addAuthor author => lib.addAuthor author
  | Call.setGenre genre => (lib.setGenre genre).1

/-- The object after a sequence of calls, made from left to right. -/
def runCalls (lib : Library) : List Call → Library
  | [] => lib
  | call :: rest => runCalls (call.run lib) rest

/-- Titles passed by one call. -/
def Call.titles : Call → List String
  | Call.addBooks bookList => bookList
  | Call.addBooksVariadic args => args
  | Call.addMovedBook title => [title]
  | Call.addAuthor _ => []
  | Call.setGenre _ => []

/-- Titles passed by a sequence of calls, in the order in which they were passed. -/
def addedTitles : List Call → List String
  | [] => []
  | call :: rest => call.titles ++ addedTitles rest

/-- A state that a default-constructed `Library` reaches by some sequence of calls. -/
def Reachable (lib : Library) : Prop :=
  ∃ calls : List Call, lib = runCalls Library.empty calls

/-- The book ids are exactly `1, ..., books.size()`. -/
def DenseIds (m : BookMap) : Prop :=
  ∀ k : Int, (UnorderedMap.find m k).isSome = true ↔ (1 ≤ k ∧ k ≤ (UnorderedMap.size m : Int))

/-- Titles numbered with consecutive integers from `id` on: each title with its position. -/
def numberFrom (id : Int) : List String → List (Int × String)
  | [] => []
  | title :: rest => (id, title) :: numberFrom (id + 1) rest

/-- Entries whose ids are held in the 32-bit `int`. -/
def wrapIds (entries : List (Int × String)) : List (Int × String) :=
  entries.map (fun p => (toInt32 p.1, p.2))

/-- A number of calls `addMovedBook(title)`, one after the other. -/
def movedCalls (n : Nat) (title : String) : List Call :=
  List.replicate n (Call.addMovedBook title)

/-- State of a default-constructed `Library` after `n` calls `addMovedBook(title)`. -/
def movedLibrary (n : Nat) (title : String) : Library :=
  runCalls Library.empty (movedCalls n title)

/-- Calls that `main` makes on `library` before it prints the catalogue (lines 104 to 109):
one `addBooks`, two `addAuthor`, one `addMovedBook`. -/
def mainCalls : List Call :=
  [Call.addBooks ["C++ Primer", "Effective Modern C++", "Clean Code"],
   Call.addAuthor "Bjarne Stroustrup",
   Call.addAuthor "Scott Meyers",
   Call.addMovedBook "The Pragmatic Programmer"]

/-- State of `library` in `main` when `showBooks` is called. -/
def mainLibrary : Library :=
  runCalls Library.empty mainCalls

end CompleteExample

/-! ## The factorial -/

namespace RelaxedConstexpr

theorem factorial_of_le_one (n : Int) (h : n ≤ 1) : factorial n = 1 := by
  rw [factorial]
  simp only [gt_iff_lt, dite_eq_ite, ite_eq_right_iff]
  intro h1
  omega

theorem factorial_of_gt_one (n : Int) (h : 1 < n) :
    factorial n = wrapInt32 (n * factorial (n - 1)) := by
  rw [factorial]
  simp [h]

theorem factorialCalls_of_le_one (n : Int) (h : n ≤ 1) : factorialCalls n = 1 := by
  rw [factorialCalls]
  simp only [gt_iff_lt, dite_eq_ite, ite_eq_right_iff]
  intro h1
  omega

theorem factorial_table :
    factorial 0 = 1 ∧ factorial 1 = 1 ∧ factorial 2 = 2 ∧ factorial 3 = 6 ∧ factorial 4 = 24 ∧
    factorial 5 = 120 ∧ factorial 6 = 720 ∧ factorial 7 = 5040 ∧ factorial 8 = 40320 ∧
    factorial 9 = 362880 ∧ factorial 10 = 3628800 ∧ factorial 11 = 39916800 ∧
    factorial 12 = 479001600 := by
  have h0 : factorial 0 = 1 := factorial_of_le_one 0 (by decide)
  have h1 : factorial 1 = 1 := factorial_of_le_one 1 (by decide)
  have h2 : factorial 2 = 2 := by
    rw [factorial_of_gt_one 2 (by decide), show (2:Int) - 1 = 1 by norm_num, h1]; decide
  have h3 : factorial 3 = 6 := by
    rw [factorial_of_gt_one 3 (by decide), show (3:Int) - 1 = 2 by norm_num, h2]; decide
  have h4 : factorial 4 = 24 := by
    rw [factorial_of_gt_one 4 (by decide), show (4:Int) - 1 = 3 by norm_num, h3]; decide
  have h5 : factorial 5 = 120 := by
    rw [factorial_of_gt_one 5 (by decide), show (5:Int) - 1 = 4 by norm_num, h4]; decide
  have h6 : factorial 6 = 720 := by
    rw [factorial_of_gt_one 6 (by decide), show (6:Int) - 1 = 5 by norm_num, h5]; decide
  have h7 : factorial 7 = 5040 := by
    rw [factorial_of_gt_one 7 (by decide), show (7:Int) - 1 = 6 by norm_num, h6]; decide
  have h8 : factorial 8 = 40320 := by
    rw [factorial_of_gt_one 8 (by decide), show (8:Int) - 1 = 7 by norm_num, h7]; decide
  have h9 : factorial 9 = 362880 := by
    rw [factorial_of_gt_one 9 (by decide), show (9:Int) - 1 = 8 by norm_num, h8]; decide
  have h10 : factorial 10 = 3628800 := by
    rw [factorial_of_gt_one 10 (by decide), show (10:Int) - 1 = 9 by norm_num, h9]; decide
  have h11 : factorial 11 = 39916800 := by
    rw [factorial_of_gt_one 11 (by decide), show (11:Int) - 1 = 10 by norm_num, h10]; decide
  have h12 : factorial 12 = 479001600 := by
    rw [factorial_of_gt_one 12 (by decide), show (12:Int) - 1 = 11 by norm_num, h11]; decide
  exact ⟨h0, h1, h2, h3, h4, h5, h6, h7, h8, h9, h10, h11, h12⟩

/-- Beyond the range: 13! does not fit a 32-bit `int`, and the product wraps around. -/
theorem factorial_13 : factorial 13 = 1932053504 := by
  rw [factorial_of_gt_one 13 (by decide), show (13:Int) - 1 = 12 by norm_num,
    factorial_table.2.2.2.2.2.2.2.2.2.2.2.2]; decide

/-- C5: `factorial` computes the mathematical factorial for every n with 0 <= n <= 12, in
particular `factorial(5)` is 120 (the constant `result` of `main`); for every n <= 1, negative n
included, the call returns 1 without a recursive call. -/
theorem factorial_eq_nat_factorial :
    (∀ n : Int, 0 ≤ n → n ≤ 12 → factorial n = (Nat.factorial n.toNat : Int)) ∧
    factorial 5 = 120 ∧ result = 120 ∧
    (∀ n : Int, n ≤ 1 → factorial n = 1 ∧ factorialCalls n = 1) := by
  refine ⟨?_, factorial_table.2.2.2.2.2.1, factorial_table.2.2.2.2.2.1, ?_⟩
  · intro n h0 h12
    obtain ⟨t0, t1, t2, t3, t4, t5, t6, t7, t8, t9, t10, t11, t12⟩ := factorial_table
    interval_cases n
    all_goals (simp only [*]; decide)
  · intro n h
    exact ⟨factorial_of_le_one n h, factorialCalls_of_le_one n h⟩

/-- Witness of C5: the largest argument of the range, and a negative argument. -/
theorem factorial_eq_nat_factorial_witness :
    factorial 12 = 479001600 ∧ factorial (-7) = 1 ∧ factorialCalls (-7) = 1 :=
  ⟨factorial_eq_nat_factorial.1 12 (by decide) (by decide),
   (factorial_eq_nat_factorial.2.2.2 (-7) (by decide)).1,
   (factorial_eq_nat_factorial.2.2.2 (-7) (by decide)).2⟩

end RelaxedConstexpr

/-! ## The library catalogue -/

namespace CompleteExample

open UnorderedMap Library

theorem find_isSome_iff (m : BookMap) (k : Int) :
    (find m k).isSome = true ↔ k ∈ keys m := by
  induction m with
  | nil => simp [find, keys]
  | cons p rest ih =>
    obtain ⟨a, b⟩ := p
    by_cases h : a = k
    · simp [find, keys, h]
    · have hk : ¬ k = a := fun e => h e.symm
      simpa [find, keys, h, hk] using ih

theorem find_eq_none_iff (m : BookMap) (k : Int) :
    find m k = none ↔ k ∉ keys m := by
  rw [← find_isSome_iff]
  cases find m k <;> simp

theorem find_append_of_none (m m' : BookMap) (k : Int) (h : find m k = none) :
    find (m ++ m') k = find m' k := by
  induction m with
  | nil => rfl
  | cons p rest ih =>
    obtain ⟨a, b⟩ := p
    by_cases hk : a = k
    · simp [find, hk] at h
    · simp only [find, hk, if_false] at h
      simp [find, hk, ih h]

theorem find_append_of_some (m m' : BookMap) (k : Int) (v : String) (h : find m k = some v) :
    find (m ++ m') k = some v := by
  induction m with
  | nil => simp [find] at h
  | cons p rest ih =>
    obtain ⟨a, b⟩ := p
    by_cases hk : a = k
    · simpa [find, hk] using h
    · simp only [find, hk, if_false] at h
      simp [find, hk, ih h]

theorem store_of_not_mem (m : BookMap) (k : Int) (v : String) (h : k ∉ keys m) :
    store m k v = m := by
  induction m with
  | nil => rfl
  | cons p rest ih =>
    obtain ⟨a, b⟩ := p
    simp only [keys, List.map_cons, List.mem_cons, not_or] at h
    have ha : ¬ a = k := fun e => h.1 e.symm
    have ih' := ih h.2
    simp only [store] at ih'
    simp [store, ha, ih']

theorem emplace_fresh (m : BookMap) (k : Int) (v : String) (h : k ∉ keys m) :
    emplace m k v = m ++ [(k, v)] := by
  simp [emplace, (find_eq_none_iff m k).2 h]

theorem assign_fresh (m : BookMap) (k : Int) (v : String) (h : k ∉ keys m) :
    assign m k v = m ++ [(k, v)] := by
  have hs := store_of_not_mem m k v h
  simp only [store] at hs
  simp [assign, subscript, emplace_fresh m k "" h, store, hs]

theorem keys_append (m m' : BookMap) : keys (m ++ m') = keys m ++ keys m' := by
  simp [keys]

theorem length_numberFrom (ts : List String) : ∀ id : Int, (numberFrom id ts).length = ts.length := by
  induction ts with
  | nil => intro id; rfl
  | cons t rest ih => intro id; simp [numberFrom, ih]

theorem mem_keys_numberFrom (ts : List String) :
    ∀ (id k : Int), k ∈ keys (numberFrom id ts) ↔ id ≤ k ∧ k < id + ts.length := by
  induction ts with
  | nil => intro id k; simp [numberFrom, keys]
  | cons t rest ih =>
    intro id k
    have := ih (id + 1) k
    simp only [keys] at this
    simp only [numberFrom, keys, List.map_cons, List.mem_cons, this, List.length_cons]
    push_cast
    omega

theorem numberFrom_append (a : List String) :
    ∀ (id : Int) (b : List String),
      numberFrom id (a ++ b) = numberFrom id a ++ numberFrom (id + a.length) b := by
  induction a with
  | nil => intro id b; simp [numberFrom]
  | cons t rest ih =>
    intro id b
    have e : id + 1 + (rest.length : Int) = id + ((rest.length + 1 : Nat) : Int) := by
      push_cast; ring
    simp [numberFrom, ih, e]

theorem denseIds_numberFrom (ts : List String) : DenseIds (numberFrom 1 ts) := by
  intro k
  rw [find_isSome_iff, mem_keys_numberFrom, size, length_numberFrom]
  omega


theorem toInt32_of_range (x : Int) (h1 : -2147483648 ≤ x) (h2 : x < 2147483648) :
    toInt32 x = x := by
  unfold toInt32
  omega

theorem toInt32_range (x : Int) : -2147483648 ≤ toInt32 x ∧ toInt32 x < 2147483648 := by
  unfold toInt32
  omega

theorem toInt32_succ (x : Int) : toInt32 (toInt32 x + 1) = toInt32 (x + 1) := by
  unfold toInt32
  omega

theorem toInt32_ne_of_lt (x y : Int) (h1 : x < y) (h2 : y < x + 4294967296) :
    toInt32 x ≠ toInt32 y := by
  unfold toInt32
  omega

theorem keys_wrapIds (l : List (Int × String)) : keys (wrapIds l) = (keys l).map toInt32 := by
  simp [keys, wrapIds, List.map_map, Function.comp_def]

theorem mem_keys_wrapIds_numberFrom (ts : List String) (x k : Int) :
    k ∈ keys (wrapIds (numberFrom x ts)) ↔
      ∃ y : Int, (x ≤ y ∧ y < x + ts.length) ∧ toInt32 y = k := by
  rw [keys_wrapIds, List.mem_map]
  constructor
  · rintro ⟨y, hy, rfl⟩
    exact ⟨y, (mem_keys_numberFrom ts x y).1 hy, rfl⟩
  · rintro ⟨y, hy, rfl⟩
    exact ⟨y, (mem_keys_numberFrom ts x y).2 hy, rfl⟩

theorem length_wrapIds (l : List (Int × String)) : (wrapIds l).length = l.length := by
  simp [wrapIds]

theorem wrapIds_append (a b : List (Int × String)) :
    wrapIds (a ++ b) = wrapIds a ++ wrapIds b := by
  simp [wrapIds]

theorem wrapIds_numberFrom_of_range (ts : List String) :
    ∀ x : Int, -2147483648 ≤ x → x + ts.length ≤ 2147483648 →
      wrapIds (numberFrom x ts) = numberFrom x ts := by
  induction ts with
  | nil => intro x _ _; rfl
  | cons t rest ih =>
    intro x h1 h2
    simp only [List.length_cons] at h2
    push_cast at h2
    have hx : toInt32 x = x := toInt32_of_range x h1 (by omega)
    have hrest := ih (x + 1) (by omega) (by omega)
    simp only [wrapIds] at hrest
    simp [wrapIds, numberFrom, hx, hrest]

theorem find_wrapIds_numberFrom (ts : List String) :
    ∀ (x : Int) (i : Nat), ts.length ≤ 4294967296 → i < ts.length →
      find (wrapIds (numberFrom x ts)) (toInt32 (x + i)) = ts[i]? := by
  induction ts with
  | nil => intro x i _ hi; simp at hi
  | cons t rest ih =>
    intro x i hlen hi
    simp only [List.length_cons] at hlen hi
    cases i with
    | zero => simp [numberFrom, wrapIds, find]
    | succ j =>
      have hne : ¬ toInt32 x = toInt32 (x + 1 + (j : Int)) :=
        toInt32_ne_of_lt x _ (by omega) (by omega)
      have hrec := ih (x + 1) j (by omega) (by omega)
      have e : x + ((j + 1 : Nat) : Int) = x + 1 + (j : Int) := by push_cast; ring
      simp only [wrapIds] at hrec
      rw [e]
      simp only [numberFrom, wrapIds, List.map_cons, find, hne, if_false, hrec,
        List.getElem?_cons_succ]

theorem addBooksLoop_fresh (ts : List String) :
    ∀ (m : BookMap) (x : Int),
      (∀ j : Nat, j < ts.length → toInt32 (x + j) ∉ keys m) → ts.length ≤ 4294967296 →
      addBooksLoop m (toInt32 x) ts = m ++ wrapIds (numberFrom x ts) := by
  induction ts with
  | nil => intro m x _ _; simp [addBooksLoop, numberFrom, wrapIds]
  | cons t rest ih =>
    intro m x hfresh hlen
    simp only [List.length_cons] at hfresh hlen
    have hid : toInt32 x ∉ keys m := by
      have := hfresh 0 (by omega)
      simpa using this
    have hstep : ∀ j : Nat, j < rest.length →
        toInt32 (x + 1 + j) ∉ keys (m ++ [(toInt32 x, t)]) := by
      intro j hj hk
      simp only [keys_append, List.mem_append] at hk
      rcases hk with hk | hk
      · have := hfresh (j + 1) (by omega)
        apply this
        have e : x + ((j + 1 : Nat) : Int) = x + 1 + (j : Int) := by push_cast; ring
        rw [e]; exact hk
      · simp only [keys, List.map_cons, List.map_nil, List.mem_singleton] at hk
        exact toInt32_ne_of_lt x (x + 1 + j) (by omega) (by omega) hk.symm
    have hrec := ih (m ++ [(toInt32 x, t)]) (x + 1) hstep (by omega)
    simp only [addBooksLoop, assign_fresh m (toInt32 x) t hid, toInt32_succ, hrec, numberFrom,
      wrapIds, List.map_cons, List.append_assoc, List.singleton_append]

theorem emplaceFold_fresh (ts : List String) :
    ∀ (m : BookMap) (x : Int),
      (∀ j : Nat, j < ts.length → toInt32 (x + j) ∉ keys m) → ts.length ≤ 4294967296 →
      emplaceFold m (toInt32 x) ts = m ++ wrapIds (numberFrom x ts) := by
  induction ts with
  | nil => intro m x _ _; simp [emplaceFold, numberFrom, wrapIds]
  | cons t rest ih =>
    intro m x hfresh hlen
    simp only [List.length_cons] at hfresh hlen
    have hid : toInt32 x ∉ keys m := by
      have := hfresh 0 (by omega)
      simpa using this
    have hstep : ∀ j : Nat, j < rest.length →
        toInt32 (x + 1 + j) ∉ keys (m ++ [(toInt32 x, t)]) := by
      intro j hj hk
      simp only [keys_append, List.mem_append] at hk
      rcases hk with hk | hk
      · have := hfresh (j + 1) (by omega)
        apply this
        have e : x + ((j + 1 : Nat) : Int) = x + 1 + (j : Int) := by push_cast; ring
        rw [e]; exact hk
      · simp only [keys, List.map_cons, List.map_nil, List.mem_singleton] at hk
        exact toInt32_ne_of_lt x (x + 1 + j) (by omega) (by omega) hk.symm
    have hrec := ih (m ++ [(toInt32 x, t)]) (x + 1) hstep (by omega)
    simp only [emplaceFold, emplace_fresh m (toInt32 x) t hid, toInt32_succ, hrec, numberFrom,
      wrapIds, List.map_cons, List.append_assoc, List.singleton_append]

theorem fresh_of_dense (m : BookMap) (h : DenseIds m) (n : Nat)
    (hfit : size m + n ≤ 2147483647) :
    ∀ j : Nat, j < n → toInt32 ((size m : Int) + 1 + j) ∉ keys m := by
  intro j hj hk
  rw [toInt32_of_range _ (by omega) (by omega)] at hk
  have := (h _).1 ((find_isSome_iff m _).2 hk)
  omega

theorem addBooks_of_dense (lib : Library) (h : DenseIds lib.books) (ts : List String)
    (hfit : size lib.books + ts.length ≤ 2147483647) :
    lib.addBooks ts =
      { lib with books := lib.books ++ numberFrom ((size lib.books : Int) + 1) ts } := by
  simp only [addBooks, firstId]
  rw [addBooksLoop_fresh ts lib.books _ (fresh_of_dense lib.books h ts.length hfit) (by omega),
    wrapIds_numberFrom_of_range ts _ (by omega) (by omega)]

theorem addBooksVariadic_of_dense (lib : Library) (h : DenseIds lib.books) (ts : List String)
    (hfit : size lib.books + ts.length ≤ 2147483647) :
    lib.addBooksVariadic ts =
      { lib with books := lib.books ++ numberFrom ((size lib.books : Int) + 1) ts } := by
  simp only [addBooksVariadic, firstId]
  rw [emplaceFold_fresh ts lib.books _ (fresh_of_dense lib.books h ts.length hfit) (by omega),
    wrapIds_numberFrom_of_range ts _ (by omega) (by omega)]

theorem addMovedBook_eq_addBooks (lib : Library) (t : String) :
    lib.addMovedBook t = lib.addBooks [t] := by
  simp [addMovedBook, addBooks, addBooksLoop]

theorem denseIds_append (m : BookMap) (h : DenseIds m) (ts : List String) :
    DenseIds (m ++ numberFrom ((size m : Int) + 1) ts) := by
  intro k
  have hk := h k
  rw [find_isSome_iff] at hk
  rw [find_isSome_iff, keys_append, List.mem_append, mem_keys_numberFrom, hk]
  simp only [size, List.length_append, length_numberFrom]
  push_cast
  omega

theorem size_append_numberFrom (m : BookMap) (id : Int) (ts : List String) :
    size (m ++ numberFrom id ts) = size m + ts.length := by
  simp [size, length_numberFrom]

theorem store_cons (a : Int) (b : String) (rest : BookMap) (k : Int) (v : String) :
    store ((a, b) :: rest) k v = (if a = k then (a, v) else (a, b)) :: store rest k v := by
  simp [store]

theorem find_store_self (m : BookMap) (k : Int) (v : String) :
    find (store m k v) k = if (find m k).isSome = true then some v else none := by
  induction m with
  | nil => simp [store, find]
  | cons p rest ih =>
    obtain ⟨a, b⟩ := p
    rw [store_cons]
    by_cases h : a = k
    · rw [if_pos h]; simp [find, h]
    · rw [if_neg h]; simp [find, h, ih]

theorem find_emplace_isSome (m : BookMap) (k : Int) (w : String) :
    (find (emplace m k w) k).isSome = true := by
  unfold emplace
  cases h : find m k with
  | some v => simp [h]
  | none => simp [find_append_of_none m _ k h, find]

theorem find_assign_self (m : BookMap) (k : Int) (v : String) :
    find (assign m k v) k = some v := by
  simp [assign, subscript, find_store_self, find_emplace_isSome]

theorem find_store_of_ne (m : BookMap) (k k' : Int) (v : String) (h : k ≠ k') :
    find (store m k v) k' = find m k' := by
  induction m with
  | nil => simp [store, find]
  | cons p rest ih =>
    obtain ⟨a, b⟩ := p
    rw [store_cons]
    by_cases ha : a = k
    · have hak : ¬ a = k' := fun e => h (ha.symm.trans e)
      rw [if_pos ha]; simp [find, hak, ih]
    · rw [if_neg ha]
      by_cases hak : a = k'
      · simp [find, hak]
      · simp [find, hak, ih]

theorem find_emplace_of_ne (m : BookMap) (k k' : Int) (w : String) (h : k ≠ k') :
    find (emplace m k w) k' = find m k' := by
  unfold emplace
  cases hf : find m k with
  | some v => rfl
  | none =>
    simp only
    cases hf' : find m k' with
    | none => rw [find_append_of_none m _ k' hf']; simp [find, h]
    | some v => exact find_append_of_some m _ k' v hf'

theorem find_assign_of_ne (m : BookMap) (k k' : Int) (v : String) (h : k ≠ k') :
    find (assign m k v) k' = find m k' := by
  simp [assign, subscript, find_store_of_ne _ k k' v h, find_emplace_of_ne m k k' "" h]

theorem size_numbered (ts : List String) : size (wrapIds (numberFrom 1 ts)) = ts.length := by
  simp [size, length_wrapIds, length_numberFrom]

theorem fresh_of_numbered (ts : List String) (n : Nat) (hfit : ts.length + n ≤ 4294967296) :
    ∀ j : Nat, j < n →
      toInt32 ((ts.length : Int) + 1 + j) ∉ keys (wrapIds (numberFrom 1 ts)) := by
  intro j hj hk
  rw [mem_keys_wrapIds_numberFrom] at hk
  obtain ⟨y, ⟨hy1, hy2⟩, hy⟩ := hk
  exact toInt32_ne_of_lt y _ (by omega) (by omega) hy

theorem numbered_append (ts titles : List String) :
    wrapIds (numberFrom 1 ts) ++ wrapIds (numberFrom ((ts.length : Int) + 1) titles) =
      wrapIds (numberFrom 1 (ts ++ titles)) := by
  rw [numberFrom_append, wrapIds_append, add_comm (1 : Int)]

theorem addBooks_of_numbered (lib : Library) (ts titles : List String)
    (h : lib.books = wrapIds (numberFrom 1 ts))
    (hfit : ts.length + titles.length ≤ 4294967296) :
    lib.addBooks titles = { lib with books := wrapIds (numberFrom 1 (ts ++ titles)) } := by
  simp only [addBooks, firstId, h, size_numbered]
  rw [addBooksLoop_fresh titles _ _ (fresh_of_numbered ts titles.length hfit) (by omega),
    numbered_append]

theorem addBooksVariadic_of_numbered (lib : Library) (ts titles : List String)
    (h : lib.books = wrapIds (numberFrom 1 ts))
    (hfit : ts.length + titles.length ≤ 4294967296) :
    lib.addBooksVariadic titles =
      { lib with books := wrapIds (numberFrom 1 (ts ++ titles)) } := by
  simp only [addBooksVariadic, firstId, h, size_numbered]
  rw [emplaceFold_fresh titles _ _ (fresh_of_numbered ts titles.length hfit) (by omega),
    numbered_append]

theorem length_addedTitles_cons (call : Call) (rest : List Call) :
    (addedTitles (call :: rest)).length = call.titles.length + (addedTitles rest).length := by
  simp [addedTitles]

theorem books_runCalls (calls : List Call) :
    ∀ (lib : Library) (ts : List String), lib.books = wrapIds (numberFrom 1 ts) →
      ts.length + (addedTitles calls).length ≤ 4294967296 →
      (runCalls lib calls).books = wrapIds (numberFrom 1 (ts ++ addedTitles calls)) := by
  induction calls with
  | nil => intro lib ts h _; simpa [runCalls, addedTitles] using h
  | cons call rest ih =>
    intro lib ts h hfit
    rw [length_addedTitles_cons] at hfit
    have key : (call.run lib).books = wrapIds (numberFrom 1 (ts ++ call.titles)) := by
      cases call with
      | addBooks l =>
        simp only [Call.titles] at hfit
        simp only [Call.run, Call.titles, addBooks_of_numbered lib ts l h (by omega)]
      | addBooksVariadic l =>
        simp only [Call.titles] at hfit
        simp only [Call.run, Call.titles, addBooksVariadic_of_numbered lib ts l h (by omega)]
      | addMovedBook t =>
        simp only [Call.titles, List.length_singleton] at hfit
        simp only [Call.run, Call.titles, addMovedBook_eq_addBooks,
          addBooks_of_numbered lib ts [t] h (by simp only [List.length_singleton]; omega)]
      | addAuthor a => simpa [Call.run, Call.titles, addAuthor] using h
      | setGenre g => simpa [Call.run, Call.titles, setGenre] using h
    have := ih (call.run lib) (ts ++ call.titles) key
      (by simp only [List.length_append]; omega)
    simpa [runCalls, addedTitles, List.append_assoc] using this

theorem books_of_calls (calls : List Call) (hfit : (addedTitles calls).length ≤ 4294967296) :
    (runCalls Library.empty calls).books = wrapIds (numberFrom 1 (addedTitles calls)) := by
  simpa using books_runCalls calls Library.empty [] rfl (by simpa using hfit)

theorem books_of_calls_in_range (calls : List Call)
    (hfit : (addedTitles calls).length ≤ 2147483647) :
    (runCalls Library.empty calls).books = numberFrom 1 (addedTitles calls) := by
  rw [books_of_calls calls (by omega),
    wrapIds_numberFrom_of_range _ 1 (by omega) (by omega)]

theorem denseIds_of_calls (calls : List Call)
    (hfit : (addedTitles calls).length ≤ 2147483647) :
    DenseIds (runCalls Library.empty calls).books := by
  rw [books_of_calls_in_range calls hfit]
  exact denseIds_numberFrom _

theorem addedTitles_movedCalls (n : Nat) (title : String) :
    addedTitles (movedCalls n title) = List.replicate n title := by
  induction n with
  | zero => rfl
  | succ k ih =>
    simp only [movedCalls] at ih
    simp only [movedCalls, List.replicate_succ, addedTitles, Call.titles, ih,
      List.singleton_append]

theorem books_movedCalls (n : Nat) (title : String) (hn : n ≤ 4294967296) :
    (runCalls Library.empty (movedCalls n title)).books =
      wrapIds (numberFrom 1 (List.replicate n title)) := by
  rw [books_of_calls _ (by rw [addedTitles_movedCalls, List.length_replicate]; exact hn),
    addedTitles_movedCalls]

theorem find_movedCalls (n : Nat) (title : String) (hn : n ≤ 4294967296) (i : Nat)
    (hi : i < n) :
    find (runCalls Library.empty (movedCalls n title)).books (toInt32 (1 + i)) =
      some title := by
  rw [books_movedCalls n title hn,
    find_wrapIds_numberFrom _ 1 i (by rw [List.length_replicate]; exact hn)
      (by rw [List.length_replicate]; exact hi),
    List.getElem?_replicate, if_pos hi]

theorem size_movedCalls (n : Nat) (title : String) (hn : n ≤ 4294967296) :
    size (runCalls Library.empty (movedCalls n title)).books = n := by
  rw [books_movedCalls n title hn, size_numbered, List.length_replicate]

theorem keys_in_range_movedCalls (n : Nat) (title : String) (hn : n ≤ 4294967296) (k : Int)
    (hk : k ∈ keys (runCalls Library.empty (movedCalls n title)).books) :
    -2147483648 ≤ k ∧ k < 2147483648 := by
  rw [books_movedCalls n title hn, keys_wrapIds, List.mem_map] at hk
  obtain ⟨y, _, rfl⟩ := hk
  exact toInt32_range y

theorem foldl_append_init (l : List String) :
    ∀ init : String,
      l.foldl (fun r s => r ++ s) init = init ++ l.foldl (fun r s => r ++ s) "" := by
  induction l with
  | nil => intro init; simp
  | cons s rest ih =>
    intro init
    simp only [List.foldl_cons]
    rw [ih (init ++ s), ih ("" ++ s), String.empty_append, String.append_assoc]

theorem foldl_append_eq_join (f : α → String) (xs : List α) :
    ∀ init : String,
      xs.foldl (fun out x => out ++ f x) init = init ++ String.join (xs.map f) := by
  induction xs with
  | nil => intro init; simp [String.join]
  | cons x rest ih =>
    intro init
    have h1 := ih (init ++ f x)
    simp only [List.foldl_cons, List.map_cons, String.join] at *
    rw [h1, foldl_append_init (List.map f rest) ("" ++ f x), String.empty_append,
      String.append_assoc]

theorem authors_foldl_addAuthor (names : List String) :
    ∀ lib : Library, (names.foldl addAuthor lib).authors = lib.authors ++ names := by
  induction names with
  | nil => intro lib; simp
  | cons a rest ih => intro lib; simp [ih, addAuthor]

theorem runCalls_append (calls : List Call) :
    ∀ (lib : Library) (more : List Call),
      runCalls lib (calls ++ more) = runCalls (runCalls lib calls) more := by
  induction calls with
  | nil => intro lib more; rfl
  | cons c rest ih => intro lib more; simp [runCalls, ih]

theorem reachable_run (lib : Library) (h : Reachable lib) (call : Call) :
    Reachable (call.run lib) := by
  obtain ⟨calls, rfl⟩ := h
  exact ⟨calls ++ [call], by rw [runCalls_append]; rfl⟩

theorem reachable_movedLibrary (n : Nat) (title : String) : Reachable (movedLibrary n title) :=
  ⟨movedCalls n title, rfl⟩

theorem denseIds_movedLibrary (n : Nat) (title : String) (hn : n ≤ 2147483647) :
    DenseIds (movedLibrary n title).books :=
  denseIds_of_calls _ (by rw [addedTitles_movedCalls, List.length_replicate]; exact hn)

theorem firstId_movedLibrary (n : Nat) (title : String) (hn : n ≤ 4294967296) :
    firstId (movedLibrary n title) = toInt32 ((n : Int) + 1) := by
  simp only [firstId, movedLibrary, size_movedCalls n title hn]

theorem books_addMovedBook (lib : Library) (t : String) :
    (lib.addMovedBook t).books = assign lib.books (firstId lib) t := rfl

theorem find_out_of_int_movedLibrary (n : Nat) (title : String) (hn : n ≤ 4294967296)
    (k : Int) (hk : 2147483648 ≤ k) : find (movedLibrary n title).books k = none := by
  rw [find_eq_none_iff]
  intro hmem
  have := keys_in_range_movedCalls n title hn k hmem
  omega

theorem getBookTitle_of_find_none (lib : Library) (id : Int) (h : find lib.books id = none) :
    (lib.getBookTitle id).1 = Except.error StdException.out_of_range := by
  simp only [getBookTitle, atKey, h]

theorem getBookTitle_of_find_some (lib : Library) (id : Int) (title : String)
    (h : find lib.books id = some title) :
    (lib.getBookTitle id).1 = Except.ok title := by
  simp only [getBookTitle, atKey, h]

theorem toInt32_at_int_max : toInt32 (((2147483647 : Nat) : Int) + 1) = -2147483648 := by
  decide

/-- Counterexample to C2 as stated: the state after 2147483647 calls of `addMovedBook` is
reachable and has dense ids; one more `addMovedBook` gives a reachable state whose ids are not
1..size, the new id being -2147483648. -/
theorem denseIds_broken_at_int_max :
    Reachable (movedLibrary 2147483647 "") ∧
    DenseIds (movedLibrary 2147483647 "").books ∧
    Reachable ((movedLibrary 2147483647 "").addMovedBook "") ∧
    find ((movedLibrary 2147483647 "").addMovedBook "").books (-2147483648) = some "" ∧
    ¬ DenseIds ((movedLibrary 2147483647 "").addMovedBook "").books := by
  have hfirst : firstId (movedLibrary 2147483647 "") = -2147483648 := by
    rw [firstId_movedLibrary _ _ (by decide), toInt32_at_int_max]
  have hfind : find ((movedLibrary 2147483647 "").addMovedBook "").books (-2147483648) =
      some "" := by
    rw [books_addMovedBook, hfirst, find_assign_self]
  refine ⟨reachable_movedLibrary _ _, denseIds_movedLibrary _ _ (le_refl _),
    reachable_run _ (reachable_movedLibrary _ _) (Call.addMovedBook ""), hfind, ?_⟩
  intro hd
  have := (hd (-2147483648)).1 (by rw [hfind]; rfl)
  omega

/-- C2 as amended: every state that the empty Library reaches by calls passing at most
2147483647 titles in all has the book ids exactly 1..books.size(), the size being the number of
titles passed; each of the three insertion functions keeps the predicate and grows the size by
the number of titles passed, duplicates included, as long as the new size is at most
2147483647. -/
theorem denseIds_invariant :
    (∀ calls : List Call, (addedTitles calls).length ≤ 2147483647 →
      DenseIds (runCalls Library.empty calls).books ∧
      size (runCalls Library.empty calls).books = (addedTitles calls).length) ∧
    (∀ (lib : Library) (titles : List String), DenseIds lib.books →
      size lib.books + titles.length ≤ 2147483647 →
      DenseIds (lib.addBooks titles).books ∧
      size (lib.addBooks titles).books = size lib.books + titles.length) ∧
    (∀ (lib : Library) (titles : List String), DenseIds lib.books →
      size lib.books + titles.length ≤ 2147483647 →
      DenseIds (lib.addBooksVariadic titles).books ∧
      size (lib.addBooksVariadic titles).books = size lib.books + titles.length) ∧
    (∀ (lib : Library) (title : String), DenseIds lib.books →
      size lib.books + 1 ≤ 2147483647 →
      DenseIds (lib.addMovedBook title).books ∧
      size (lib.addMovedBook title).books = size lib.books + 1) := by
  refine ⟨?_, ?_, ?_, ?_⟩
  · intro calls hfit
    refine ⟨denseIds_of_calls calls hfit, ?_⟩
    rw [books_of_calls_in_range calls hfit]
    simp [size, length_numberFrom]
  · intro lib titles h hfit
    rw [addBooks_of_dense lib h titles hfit]
    exact ⟨denseIds_append lib.books h titles, size_append_numberFrom _ _ _⟩
  · intro lib titles h hfit
    rw [addBooksVariadic_of_dense lib h titles hfit]
    exact ⟨denseIds_append lib.books h titles, size_append_numberFrom _ _ _⟩
  · intro lib title h hfit
    rw [addMovedBook_eq_addBooks, addBooks_of_dense lib h [title] hfit]
    exact ⟨denseIds_append lib.books h [title], size_append_numberFrom _ _ _⟩

/-- Witness of C2 as amended: the catalogue of `main` has dense ids and four books, and adding
the same title twice grows it by two. -/
theorem denseIds_invariant_witness :
    DenseIds mainLibrary.books ∧ size mainLibrary.books = 4 ∧
    size (mainLibrary.addBooks ["Clean Code", "Clean Code"]).books = 6 :=
  ⟨(denseIds_invariant.1 mainCalls (by decide)).1,
   (denseIds_invariant.1 mainCalls (by decide)).2,
   (denseIds_invariant.2.1 mainLibrary ["Clean Code", "Clean Code"]
      (denseIds_invariant.1 mainCalls (by decide)).1 (by decide)).2⟩

theorem toInt32_at_int_max_pos : toInt32 (1 + ((2147483647 : Nat) : Int)) = -2147483648 := by
  decide

/-- Counterexample to C3 as stated. First, with a hash table that hands out its newest entry
first, `showBooks` in `main` lists the ids 4, 3, 2, 1, which is not the text with the lines in
insertion order. Second, after 2147483648 titles the last one is filed under the id -2147483648
and no entry has the id 2147483648, so the ids printed are then not the positions 1, 2, ..., n. -/
theorem showBooks_not_in_insertion_order :
    (showBooks headLinked mainLibrary =
      "Book ID: 4, Title: The Pragmatic Programmer\nBook ID: 3, Title: Clean Code\nBook ID: 2, Title: Effective Modern C++\nBook ID: 1, Title: C++ Primer\n" ∧
    showBooks headLinked mainLibrary ≠
      String.join ((numberFrom 1 (addedTitles mainCalls)).map bookLine)) ∧
    (find (movedLibrary 2147483648 "t").books (-2147483648) = some "t" ∧
     find (movedLibrary 2147483648 "t").books 2147483648 = none) := by
  refine ⟨⟨by decide, by decide⟩, ?_, ?_⟩
  · have h := find_movedCalls 2147483648 "t" (by decide) 2147483647 (by decide)
    rw [toInt32_at_int_max_pos] at h
    exact h
  · exact find_out_of_int_movedLibrary _ _ (by decide) _ (by decide)

/-- C3 as amended: for every iteration order of the hash map and every sequence of calls made on
an empty Library that passes at most 2147483647 titles in all, `showBooks` writes exactly one
line "Book ID: id, Title: title" per added title, none missing and none repeated: the lines are
those of the titles numbered 1, 2, ..., n in insertion order, taken in some order (that of the
hash map's iteration). -/
theorem showBooks_lines_perm (tr : Traversal) (calls : List Call)
    (hfit : (addedTitles calls).length ≤ 2147483647) :
    ∃ entries : List (Int × String),
      entries.Perm (numberFrom 1 (addedTitles calls)) ∧
      showBooks tr (runCalls Library.empty calls) = String.join (entries.map bookLine) := by
  refine ⟨tr.iter (runCalls Library.empty calls).books, ?_, ?_⟩
  · have h := tr.perm (runCalls Library.empty calls).books
    rw [books_of_calls_in_range calls hfit] at h
    rw [books_of_calls_in_range calls hfit]
    exact h
  · simp only [showBooks]
    rw [foldl_append_eq_join bookLine, String.empty_append]

/-- Witness of C3 as amended, at the calls of `main`: under the newest-first iteration order the
four lines are those of the ids 1 to 4, each once. -/
theorem showBooks_lines_perm_witness :
    ∃ entries : List (Int × String),
      entries.Perm [(1, "C++ Primer"), (2, "Effective Modern C++"), (3, "Clean Code"),
        (4, "The Pragmatic Programmer")] ∧
      showBooks headLinked mainLibrary = String.join (entries.map bookLine) :=
  showBooks_lines_perm headLinked mainCalls (by decide)

/-- With a hash table that hands out its entries oldest first, the lines of `showBooks` do come
in insertion order: insertion order is the behaviour of some tables, not of all. -/
theorem showBooks_tailLinked (calls : List Call)
    (hfit : (addedTitles calls).length ≤ 2147483647) :
    showBooks tailLinked (runCalls Library.empty calls) =
      String.join ((numberFrom 1 (addedTitles calls)).map bookLine) := by
  simp only [showBooks, tailLinked]
  rw [foldl_append_eq_join bookLine, String.empty_append, books_of_calls_in_range calls hfit]

/-- C4: after the names a_1..a_m are passed one by one to `addAuthor` on an empty Library,
`showAuthors` writes the header "Authors:" and then exactly the lines " - a_1", ..., " - a_m"
in that order; each `addAuthor` appends to the end of the author sequence and leaves the
earlier elements as they are. -/
theorem showAuthors_addAuthor :
    (∀ names : List String,
      showAuthors (names.foldl addAuthor Library.empty) =
        "Authors:\n" ++ String.join (names.map (fun a => " - " ++ a ++ "\n"))) ∧
    (∀ (lib : Library) (author : String),
      (lib.addAuthor author).authors = lib.authors ++ [author]) ∧
    showAuthors ((Library.empty.addAuthor "Bjarne Stroustrup").addAuthor "Scott Meyers") =
      "Authors:\n - Bjarne Stroustrup\n - Scott Meyers\n" := by
  refine ⟨?_, fun _ _ => rfl, by decide⟩
  intro names
  simp only [showAuthors, authors_foldl_addAuthor, Library.empty, List.nil_append]
  rw [← foldl_append_eq_join (fun a => " - " ++ a ++ "\n") names "Authors:\n"]
  congr 1
  funext out a
  simp only [String.append_assoc]

/-- Witness of C4: three names, one of them passed twice. -/
theorem showAuthors_addAuthor_witness :
    showAuthors (["Ada", "Bob", "Ada"].foldl addAuthor Library.empty) =
      "Authors:\n - Ada\n - Bob\n - Ada\n" :=
  showAuthors_addAuthor.1 ["Ada", "Bob", "Ada"]

/-- C6: `getBookTitle(id)` returns a title exactly when `id` is a key of the book map; in a
Library with the dense ids 1..n every id below 1 or above n makes it fail with the
`std::out_of_range` of the container; in both cases the Library is left as it was. -/
theorem getBookTitle_total :
    (∀ (lib : Library) (id : Int),
      (∃ title, (lib.getBookTitle id).1 = Except.ok title) ↔ id ∈ keys lib.books) ∧
    (∀ (lib : Library) (id : Int), DenseIds lib.books →
      (id < 1 ∨ (size lib.books : Int) < id) →
      (lib.getBookTitle id).1 = Except.error StdException.out_of_range) ∧
    (∀ (lib : Library) (id : Int), (lib.getBookTitle id).2 = lib) := by
  refine ⟨?_, ?_, fun _ _ => rfl⟩
  · intro lib id
    rw [← find_isSome_iff]
    simp only [getBookTitle, atKey]
    cases find lib.books id <;> simp
  · intro lib id h hid
    have hnone : find lib.books id = none := by
      rw [find_eq_none_iff, ← find_isSome_iff, h id]
      omega
    simp [getBookTitle, atKey, hnone]

/-- Witness of C6: in the catalogue of `main` (ids 1 to 4) the ids 0 and 5 fail, id 4 succeeds,
and the catalogue is unchanged. -/
theorem getBookTitle_total_witness :
    (mainLibrary.getBookTitle 0).1 = Except.error StdException.out_of_range ∧
    (mainLibrary.getBookTitle 5).1 = Except.error StdException.out_of_range ∧
    (∃ title, (mainLibrary.getBookTitle 4).1 = Except.ok title) ∧
    (mainLibrary.getBookTitle 5).2 = mainLibrary :=
  ⟨getBookTitle_total.2.1 mainLibrary 0 (denseIds_of_calls mainCalls (by decide))
      (Or.inl (by decide)),
   getBookTitle_total.2.1 mainLibrary 5 (denseIds_of_calls mainCalls (by decide))
      (Or.inr (by decide)),
   (getBookTitle_total.1 mainLibrary 4).2 (by decide),
   getBookTitle_total.2.2 mainLibrary 5⟩

/-- Where the next id is already a key the two overloads differ: `operator[]` overwrites the title and `emplace` leaves it. -/
theorem overloads_differ_on_taken_id :
    (Library.mk [(2, "old")] []).addBooks ["new"] = Library.mk [(2, "new")] [] ∧
    (Library.mk [(2, "old")] []).addBooksVariadic ["new"] = Library.mk [(2, "old")] [] := by
  constructor <;> decide

/-- Counterexample to C8 as stated: in the catalogue of 2147483647 books the title passed to
`addMovedBook` is not stored under the id previous size + 1 (no `int` holds 2147483648) but
under -2147483648. -/
theorem addMovedBook_at_int_max :
    size (movedLibrary 2147483647 "a").books = 2147483647 ∧
    (((movedLibrary 2147483647 "a").addMovedBook "t").getBookTitle (2147483647 + 1)).1 =
      Except.error StdException.out_of_range ∧
    (((movedLibrary 2147483647 "a").addMovedBook "t").getBookTitle (-2147483648)).1 =
      Except.ok "t" := by
  have hfirst : firstId (movedLibrary 2147483647 "a") = -2147483648 := by
    rw [firstId_movedLibrary _ _ (by decide), toInt32_at_int_max]
  refine ⟨size_movedCalls _ _ (by decide), ?_, ?_⟩
  · have hnone : find (movedLibrary 2147483647 "a").books (2147483647 + 1) = none :=
      find_out_of_int_movedLibrary _ _ (by decide) _ (by decide)
    apply getBookTitle_of_find_none
    rw [books_addMovedBook, hfirst,
      find_assign_of_ne _ (-2147483648) (2147483647 + 1) "t" (by decide), hnone]
  · apply getBookTitle_of_find_some
    rw [books_addMovedBook, hfirst, find_assign_self]

/-- C8 as amended: for every Library state and every title, `addMovedBook(t)` leads to the same
state as `addBooks` with the one title t; t is then stored under the `int` value of previous
size + 1, which is previous size + 1 itself as long as that is at most 2147483647. In `main`
the title added after the three-title `addBooks` is stored under id 4. -/
theorem addMovedBook_as_addBooks (lib : Library) (title : String) :
    lib.addMovedBook title = lib.addBooks [title] ∧
    ((lib.addMovedBook title).getBookTitle (toInt32 ((size lib.books : Int) + 1))).1 =
      Except.ok title ∧
    (size lib.books + 1 ≤ 2147483647 →
      ((lib.addMovedBook title).getBookTitle ((size lib.books : Int) + 1)).1 =
        Except.ok title) ∧
    ((Library.empty.addBooks ["C++ Primer", "Effective Modern C++", "Clean Code"]).addMovedBook
        "The Pragmatic Programmer").getBookTitle 4 =
      (Except.ok "The Pragmatic Programmer",
        Library.mk [(1, "C++ Primer"), (2, "Effective Modern C++"), (3, "Clean Code"),
          (4, "The Pragmatic Programmer")] []) := by
  have hstored : ((lib.addMovedBook title).getBookTitle
      (toInt32 ((size lib.books : Int) + 1))).1 = Except.ok title := by
    apply getBookTitle_of_find_some
    rw [books_addMovedBook]
    exact find_assign_self _ _ _
  refine ⟨addMovedBook_eq_addBooks lib title, hstored, ?_, rfl⟩
  intro hfit
  rw [toInt32_of_range _ (by omega) (by omega)] at hstored
  exact hstored

/-- Witness of C8 as amended: on a state whose next id is already taken, both calls overwrite
its title. -/
theorem addMovedBook_as_addBooks_witness :
    (Library.mk [(2, "old")] ["Ada"]).addMovedBook "new" =
      (Library.mk [(2, "old")] ["Ada"]).addBooks ["new"] ∧
    (((Library.mk [(2, "old")] ["Ada"]).addMovedBook "new").getBookTitle 2).1 =
      Except.ok "new" :=
  ⟨(addMovedBook_as_addBooks (Library.mk [(2, "old")] ["Ada"]) "new").1,
   (addMovedBook_as_addBooks (Library.mk [(2, "old")] ["Ada"]) "new").2.2.1 (by decide)⟩

/-- C9: `setGenre` leaves the Library as it is, whichever genre is passed, and writes
"Genre set to " followed by the label of the genre and a newline, a different label for each
of the four genres. -/
theorem setGenre_stateless (lib : Library) :
    (∀ genre : Genre, (lib.setGenre genre).1 = lib) ∧
    (lib.setGenre Genre.Fiction).2 = "Genre set to Fiction\n" ∧
    (lib.setGenre Genre.NonFiction).2 = "Genre set to NonFiction\n" ∧
    (lib.setGenre Genre.SciFi).2 = "Genre set to SciFi\n" ∧
    (lib.setGenre Genre.Fantasy).2 = "Genre set to Fantasy\n" ∧
    (∀ g g' : Genre, (lib.setGenre g).2 = (lib.setGenre g').2 → g = g') := by
  refine ⟨fun _ => rfl, by simp [setGenre], by simp [setGenre], by simp [setGenre],
    by simp [setGenre], ?_⟩
  intro g g'
  cases g <;> cases g' <;> simp only [setGenre] <;> decide

/-- Witness of C9: the call `library.setGenre(Genre::SciFi)` of `main`. -/
theorem setGenre_stateless_witness :
    mainLibrary.setGenre Genre.SciFi = (mainLibrary, "Genre set to SciFi\n") ∧
    (mainLibrary.setGenre Genre.Fiction).2 ≠ (mainLibrary.setGenre Genre.Fantasy).2 :=
  ⟨Prod.ext ((setGenre_stateless mainLibrary).1 Genre.SciFi)
      (setGenre_stateless mainLibrary).2.2.2.1,
   fun e => absurd ((setGenre_stateless mainLibrary).2.2.2.2.2 Genre.Fiction Genre.Fantasy e)
      (by decide)⟩

end CompleteExample
